import Mathlib

/-!
Verification of the author/publication consistency model and the
search/pagination layer of the publication-repository backend.

The definitions below are a shallow embedding of the JavaScript source:
the Mongo collections become lists of records, each controller becomes a
function from a store to an `Except` result, and the storage layer's
unique indexes and post-write hooks (declared in `author.model.js`)
become explicit checks and recomputations inside the save operation.
-/

namespace ResearchPub

/-- Error taxonomy of the request handlers: 400 validation, 400/409
duplicate, 404 missing entity, 500 internal (§7 of the design). -/
inductive ApiError where
  | validation : String → ApiError
  | conflict : String → ApiError
  | notFound : String → ApiError
  | internal : String → ApiError
deriving DecidableEq, Repr

/-- One document of the `authors` collection (`author.model.js`):
`publication_id = none` is a registered template, `some p` an
assignment occupying slot `author_order` of publication `p`. -/
structure AuthorRec where
  id : Nat
  employee_id : Nat
  author_name : String
  password : String
  department : Nat
  publication_id : Option Nat
  author_order : Option Nat
  isActive : Bool
deriving DecidableEq, Repr

/-- One document of the `publications` collection, restricted to the
fields the assignment model touches (`publication.model.js`). -/
structure PubRec where
  id : Nat
  coAuthorCount : Nat
deriving DecidableEq, Repr

/-- The entity store: the three collections the assignment model reads
and writes, plus the id counter the database assigns to new documents. -/
structure Store where
  authors : List AuthorRec
  pubs : List PubRec
  departments : List Nat
  nextId : Nat
deriving DecidableEq, Repr

/-- `countDocuments({ publication_id })` as used by the post-save and
post-delete hooks of `author.model.js` (no `isActive` filter). -/
def countDocumentsFor (s : Store) (p : Nat) : Nat :=
  s.authors.countP (fun b => b.publication_id == some p)

/-- Count of active assignment records referencing publication `p`
(the quantity named by the specification). -/
def countActiveAssignments (s : Store) (p : Nat) : Nat :=
  s.authors.countP (fun b => b.publication_id == some p && b.isActive)

/-- `Publication.findByIdAndUpdate(p, { coAuthorCount: n })`: updates the
matching publication document, does nothing when `p` is absent. -/
def setCoAuthorCount (s : Store) (p n : Nat) : Store :=
  { s with pubs := s.pubs.map (fun q => if q.id == p then { q with coAuthorCount := n } else q) }

/-- The post-save / post-delete hook body of `author.model.js`: recompute
`coAuthorCount` of publication `p` as `countDocuments({ publication_id: p })`. -/
def recomputeCoAuthorCount (s : Store) (p : Nat) : Store :=
  setCoAuthorCount s p (countDocumentsFor s p)

/-- `authorDoc.save()`: enforce the two partial unique compound indexes of
`author.model.js` (on `(publication_id, employee_id)` and on
`(publication_id, author_order)`, both only for documents with
`publication_id ≠ null`), insert the document, then run the post-save
hook, which recomputes the owning publication's `coAuthorCount` when
`publication_id` is set. -/
def saveAuthor (s : Store) (a : AuthorRec) : Except ApiError Store :=
  if a.publication_id.isSome &&
      s.authors.any (fun b => b.publication_id == a.publication_id &&
        b.employee_id == a.employee_id) then
    .error (.conflict "E11000 duplicate key: publication_id, employee_id")
  else if a.publication_id.isSome &&
      s.authors.any (fun b => b.publication_id == a.publication_id &&
        b.author_order == a.author_order) then
    .error (.conflict "E11000 duplicate key: publication_id, author_order")
  else
    let s1 : Store := { s with authors := s.authors ++ [a], nextId := s.nextId + 1 }
    .ok (match a.publication_id with
      | some p => recomputeCoAuthorCount s1 p
      | none => s1)

/-- Executable model of JavaScript `String.prototype.trim`: drop
whitespace from both ends. -/
def strTrim (s : String) : String :=
  ⟨((s.data.dropWhile Char.isWhitespace).reverse.dropWhile
    Char.isWhitespace).reverse⟩

/-- `registerAuthor` (`user.controller.js`): validates the request, fails
with 400 conflict when an active author record already exists for the
employee id, with 400 validation when the department is absent, and
otherwise inserts a fresh unassigned template record. -/
def registerAuthor (s : Store) (e : Nat) (name pwd : String) (dept : Nat) :
    Except ApiError Store :=
  if e == 0 then
    .error (.validation "Employee ID must be a positive number")
  else if 100 < name.length then
    .error (.validation "Author name must be max 100 characters")
  else if s.authors.any (fun b => b.employee_id == e && b.isActive) then
    .error (.conflict "Author with this employee ID already exists")
  else if !(s.departments.contains dept) then
    .error (.validation "Department not found. Please provide a valid department ID.")
  else
    saveAuthor s
      { id := s.nextId
        employee_id := e
        author_name := strTrim name
        password := strTrim pwd
        department := dept
        publication_id := none
        author_order := none
        isActive := true }

/-- Resolve the `author_name || existingAuthor.author_name` override of
`assignAuthorToPublication` (a missing or empty override falls back to
the template's value, matching JavaScript falsiness). -/
def overrideStr (ov : Option String) (dflt : String) : String :=
  match ov with
  | some v => if v.isEmpty then dflt else v
  | none => dflt

/-- `assignAuthorToPublication` (`user.controller.js`): requires a
registered unassigned template for the employee and an existing
publication, pre-checks the two conflict conditions, validates the
order, and saves a new assignment record copying the template's
identity fields; the save re-enforces the unique indexes and the
post-save hook recomputes the publication's `coAuthorCount`. -/
def assignAuthorToPublication (s : Store) (e p ord : Nat)
    (nameOv : Option String) (deptOv : Option Nat) : Except ApiError Store :=
  if e == 0 || ord == 0 then
    .error (.validation "Employee ID, Publication ID, and Author Order are required")
  else
    match s.authors.find? (fun a =>
        a.employee_id == e && a.publication_id == none && a.isActive) with
    | none => .error (.notFound "Author not found or not registered. Please register the author first.")
    | some tmpl =>
      if !(s.pubs.any (fun q => q.id == p)) then
        .error (.notFound "Publication not found")
      else if s.authors.any (fun a =>
          a.employee_id == e && a.publication_id == some p && a.isActive) then
        .error (.conflict "Author is already assigned to this publication")
      else if s.authors.any (fun a =>
          a.publication_id == some p && a.author_order == some ord && a.isActive) then
        .error (.conflict "Author order is already taken for this publication")
      else if ord < 1 then
        .error (.validation "Author order must be a positive integer starting from 1")
      else
        saveAuthor s
          { id := s.nextId
            employee_id := tmpl.employee_id
            author_name := overrideStr nameOv tmpl.author_name
            password := tmpl.password
            department := (deptOv.getD tmpl.department)
            publication_id := some p
            author_order := some ord
            isActive := true }

/-- `Author.findOneAndDelete` on a record id, together with the
post-delete hook of `author.model.js`: remove the first matching
document and, when the deleted document carried a `publication_id`,
recompute that publication's `coAuthorCount`. Returns the new store
and the deleted document, if any. -/
def removeAssignment (s : Store) (rid : Nat) : Store × Option AuthorRec :=
  match s.authors.find? (fun a => a.id == rid) with
  | none => (s, none)
  | some doc =>
    let s1 : Store := { s with authors := s.authors.eraseP (fun a => a.id == rid) }
    match doc.publication_id with
    | some p => (recomputeCoAuthorCount s1 p, some doc)
    | none => (s1, some doc)

/-- `deleteUnassignedAuthor` (`user.controller.js`): 404 when no
unassigned record exists for the employee, 400 conflict when any
assignment record references the employee, and otherwise deletes the
found unassigned record (whose `publication_id` is null, so the
post-delete hook recomputes nothing). -/
def deleteUnassignedAuthor (s : Store) (e : Nat) :
    Except ApiError (Store × AuthorRec) :=
  if e == 0 then
    .error (.validation "Employee ID is required")
  else
    match s.authors.find? (fun a => a.employee_id == e && a.publication_id == none) with
    | none => .error (.notFound "Unassigned author not found")
    | some author =>
      if 0 < s.authors.countP (fun a => a.employee_id == e && !(a.publication_id == none)) then
        .error (.conflict "Cannot delete author with existing publication assignments. Remove assignments first.")
      else
        .ok ((removeAssignment s author.id).1, author)

/-- `deletePublication` (`user.controller.js`): 404 when the publication
is absent; otherwise `Author.deleteMany({ publication_id })` removes
every assignment record referencing it (query-level delete, no
document hooks fire), the publication document is deleted, and the
number of removed assignments is reported. -/
def deletePublication (s : Store) (p : Nat) : Except ApiError (Store × Nat) :=
  if !(s.pubs.any (fun q => q.id == p)) then
    .error (.notFound "Publication not found")
  else
    let associated := s.authors.filter (fun a => a.publication_id == some p)
    let s1 : Store :=
      { s with
        authors := s.authors.filter (fun a => !(a.publication_id == some p))
        pubs := s.pubs.eraseP (fun q => q.id == p) }
    .ok (s1, associated.length)

/-! ### Store invariants -/

/-- Every author document is active: all creation paths of the
controllers set `isActive: true` and no operation deactivates. -/
def allActive (s : Store) : Prop :=
  ∀ a ∈ s.authors, a.isActive = true

/-- The constraint enforced by the two partial unique compound indexes of
`author.model.js`: two distinct documents that share a non-null
`publication_id` differ in `employee_id` and in `author_order`. -/
def uniqueAssignKeys (s : Store) : Prop :=
  s.authors.Pairwise (fun a b =>
    a.publication_id = b.publication_id → a.publication_id ≠ none →
      a.employee_id ≠ b.employee_id ∧ a.author_order ≠ b.author_order)

/-- Assignment-by-duplication invariant around employee `e`: an active
assignment record for `e` can only exist while an active unassigned
template record for `e` exists (assignments are created by copying the
template, and the template cannot be deleted while assignments remain). -/
def templateInvFor (s : Store) (e : Nat) : Prop :=
  (∃ a ∈ s.authors, a.employee_id = e ∧ a.publication_id ≠ none ∧ a.isActive = true) →
    ∃ t ∈ s.authors, t.employee_id = e ∧ t.publication_id = none ∧ t.isActive = true

/-! ### Structural lemmas about the operations -/

theorem countDocumentsFor_eq_active (s : Store) (hA : allActive s) (p : Nat) :
    countDocumentsFor s p = countActiveAssignments s p := by
  unfold countDocumentsFor countActiveAssignments
  refine List.countP_congr (fun a ha => ?_)
  simp [hA a ha]

theorem setCoAuthorCount_authors (s : Store) (p n : Nat) :
    (setCoAuthorCount s p n).authors = s.authors := rfl

theorem setCoAuthorCount_mem (s : Store) (p n : Nat) :
    ∀ q ∈ (setCoAuthorCount s p n).pubs, q.id = p → q.coAuthorCount = n := by
  intro q hq hid
  simp only [setCoAuthorCount, List.mem_map] at hq
  obtain ⟨q0, _, rfl⟩ := hq
  by_cases h : q0.id = p
  · simp [h]
  · rw [if_neg (by simpa using h)] at hid
    exact absurd hid h

theorem recomputeCoAuthorCount_authors (s : Store) (p : Nat) :
    (recomputeCoAuthorCount s p).authors = s.authors := rfl

theorem recomputeCoAuthorCount_mem (s : Store) (p : Nat) :
    ∀ q ∈ (recomputeCoAuthorCount s p).pubs, q.id = p →
      q.coAuthorCount = countDocumentsFor s p :=
  setCoAuthorCount_mem s p (countDocumentsFor s p)

/-- Anatomy of a successful `assignAuthorToPublication` call: the store
gains exactly one new active assignment record for `(e, p, ord)`, the
pre-checks and the unique-index checks all passed, and the pubs list is
the recomputed one. -/
theorem assign_ok_shape (s : Store) (e p ord : Nat) (nm : Option String)
    (dp : Option Nat) (s1 : Store)
    (h : assignAuthorToPublication s e p ord nm dp = .ok s1) :
    ∃ a : AuthorRec,
      a.publication_id = some p ∧ a.isActive = true ∧ a.employee_id = e ∧
      a.author_order = some ord ∧ 1 ≤ ord ∧
      s1.authors = s.authors ++ [a] ∧
      s.pubs.any (fun q => q.id == p) = true ∧
      s.authors.any (fun b => b.publication_id == some p && b.employee_id == e) = false ∧
      s.authors.any (fun b => b.publication_id == some p && b.author_order == some ord) = false ∧
      s1 = recomputeCoAuthorCount
        { s with authors := s.authors ++ [a], nextId := s.nextId + 1 } p ∧
      e ≠ 0 ∧
      (∃ tmpl, s.authors.find? (fun a =>
        a.employee_id == e && a.publication_id == none && a.isActive) = some tmpl) := by
  unfold assignAuthorToPublication at h
  split at h
  · exact absurd h (by simp)
  · rename_i hreq
    split at h
    · exact absurd h (by simp)
    · rename_i tmpl htmpl
      have htp := List.find?_some htmpl
      simp only [Bool.and_eq_true, beq_iff_eq] at htp
      split at h
      · exact absurd h (by simp)
      · rename_i hpub
        split at h
        · exact absurd h (by simp)
        · split at h
          · exact absurd h (by simp)
          · split at h
            · exact absurd h (by simp)
            · rename_i hdup hord hlt
              unfold saveAuthor at h
              split at h
              · exact absurd h (by simp)
              · split at h
                · exact absurd h (by simp)
                · rename_i hidx1 hidx2
                  simp only [Bool.not_eq_true, Bool.or_eq_true, beq_iff_eq,
                    Bool.and_eq_true] at hreq hlt hidx1 hidx2 hpub
                  push_neg at hreq
                  refine ⟨{ id := s.nextId,
                              employee_id := tmpl.employee_id,
                              author_name := overrideStr nm tmpl.author_name,
                              password := tmpl.password,
                              department := dp.getD tmpl.department,
                              publication_id := some p,
                              author_order := some ord,
                              isActive := true },
                            rfl, rfl, htp.1.1, rfl, ?_, ?_, ?_, ?_, ?_, ?_,
                            hreq.1, ⟨tmpl, htmpl⟩⟩
                  · omega
                  · simp only [Except.ok.injEq] at h
                    rw [← h]
                    rfl
                  · simpa using hpub
                  · rw [Bool.eq_false_iff]
                    intro hc
                    exact hidx1 ⟨by simp, by simpa [htp.1.1] using hc⟩
                  · rw [Bool.eq_false_iff]
                    intro hc
                    exact hidx2 ⟨by simp, by simpa using hc⟩
                  · simp only [Except.ok.injEq] at h
                    exact h.symm

theorem removeAssignment_some_shape (s : Store) (rid : Nat) (s2 : Store)
    (doc : AuthorRec) (p : Nat)
    (h : removeAssignment s rid = (s2, some doc))
    (hp : doc.publication_id = some p) :
    s2 = recomputeCoAuthorCount
      { s with authors := s.authors.eraseP (fun a => a.id == rid) } p := by
  unfold removeAssignment at h
  split at h
  · simp at h
  · rename_i doc0 hfind
    split at h
    · rename_i p0 hp0
      simp only [Prod.mk.injEq, Option.some.injEq] at h
      obtain ⟨hs2, hdoc⟩ := h
      subst hdoc
      rw [hp0] at hp
      simp only [Option.some.injEq] at hp
      subst hp
      exact hs2.symm
    · rename_i hnone
      simp only [Prod.mk.injEq, Option.some.injEq] at h
      obtain ⟨hs2, hdoc⟩ := h
      subst hdoc
      rw [hnone] at hp
      exact absurd hp (by simp)

theorem allActive_append (s : Store) (a : AuthorRec) (hA : allActive s)
    (ha : a.isActive = true) :
    ∀ x ∈ s.authors ++ [a], x.isActive = true := by
  intro x hx
  rcases List.mem_append.mp hx with hx1 | hx1
  · exact hA x hx1
  · simp only [List.mem_singleton] at hx1
    subst hx1
    exact ha

theorem allActive_eraseP (s : Store) (q : AuthorRec → Bool) (hA : allActive s) :
    ∀ x ∈ s.authors.eraseP q, x.isActive = true :=
  fun x hx => hA x ((s.authors.eraseP_sublist).mem hx)

/-! ### Demonstration stores used by the witnesses -/

/-- A store holding one registered unassigned author (employee 1,
department 3) and one publication (id 5) with no assignments. -/
def demoStore : Store :=
  { authors := [⟨0, 1, "A", "pw", 3, none, none, true⟩]
    pubs := [⟨5, 0⟩]
    departments := [3]
    nextId := 1 }

/-- `demoStore` after assigning employee 1 to publication 5 at order 1. -/
def demoStoreAssigned : Store :=
  { authors := [⟨0, 1, "A", "pw", 3, none, none, true⟩,
                ⟨1, 1, "A", "pw", 3, some 5, some 1, true⟩]
    pubs := [⟨5, 1⟩]
    departments := [3]
    nextId := 2 }

/-! ### Claim theorems -/

/-- C1: for every publication `p`, after a successful
`assignAuthorToPublication` targeting `p` (which saves an author record
with `publication_id = p`), and after a `removeAssignment` that deletes
such a record, the stored `coAuthorCount` of `p` equals the number of
active author assignment records whose `publication_id` is `p`
(stated over stores whose author records are all active, the only kind
the operations produce). -/
theorem coAuthorCount_consistency (s : Store) (hA : allActive s) (p : Nat) :
    (∀ e ord nm dp s1, assignAuthorToPublication s e p ord nm dp = .ok s1 →
      ∀ q ∈ s1.pubs, q.id = p → q.coAuthorCount = countActiveAssignments s1 p) ∧
    (∀ rid s2 doc, removeAssignment s rid = (s2, some doc) →
      doc.publication_id = some p →
      ∀ q ∈ s2.pubs, q.id = p → q.coAuthorCount = countActiveAssignments s2 p) := by
  constructor
  · intro e ord nm dp s1 h q hq hid
    obtain ⟨a, hap, haa, -, -, -, -, -, -, -, hs1, -, -⟩ :=
      assign_ok_shape s e p ord nm dp s1 h
    subst hs1
    have hcnt := recomputeCoAuthorCount_mem
      { s with authors := s.authors ++ [a], nextId := s.nextId + 1 } p q hq hid
    rw [hcnt]
    refine countDocumentsFor_eq_active _ ?_ p
    intro x hx
    exact allActive_append s a hA haa x hx
  · intro rid s2 doc h hdp q hq hid
    have hs2 := removeAssignment_some_shape s rid s2 doc p h hdp
    subst hs2
    have hcnt := recomputeCoAuthorCount_mem
      { s with authors := s.authors.eraseP (fun a => a.id == rid) } p q hq hid
    rw [hcnt]
    refine countDocumentsFor_eq_active _ ?_ p
    intro x hx
    exact allActive_eraseP s _ hA x hx

/-- Witness for C1: in the concrete `demoStore`, assigning employee 1 to
publication 5 yields a store where publication 5's `coAuthorCount`
agrees with the count of active assignment records. -/
theorem coAuthorCount_consistency_witness :
    assignAuthorToPublication demoStore 1 5 1 none none =
      Except.ok demoStoreAssigned ∧
    ∀ q ∈ demoStoreAssigned.pubs, q.id = 5 →
      q.coAuthorCount = countActiveAssignments demoStoreAssigned 5 := by
  constructor
  · rfl
  · exact (coAuthorCount_consistency demoStore
      (by simp [allActive, demoStore]) 5).1 1 1 none none
      demoStoreAssigned (by rfl)

/-- A call whose template and publication lookups succeed and whose
duplicate-assignment or taken-order pre-check fires returns a 400
`ConflictError` and leaves the store untouched. -/
theorem assign_conflict_of_existing (s : Store) (e p ord : Nat)
    (nm : Option String) (dp : Option Nat)
    (he : e ≠ 0) (hord : ord ≠ 0)
    (htm : (s.authors.find? (fun a =>
      a.employee_id == e && a.publication_id == none && a.isActive)).isSome)
    (hpub : s.pubs.any (fun q => q.id == p) = true)
    (hconf : (s.authors.any (fun a =>
        a.employee_id == e && a.publication_id == some p && a.isActive)) = true ∨
      (s.authors.any (fun a =>
        a.publication_id == some p && a.author_order == some ord && a.isActive)) = true) :
    ∃ m, assignAuthorToPublication s e p ord nm dp =
      .error (.conflict m) := by
  unfold assignAuthorToPublication
  rw [if_neg (by simp [he, hord])]
  obtain ⟨tmpl, htmpl⟩ := Option.isSome_iff_exists.mp htm
  rw [htmpl]
  simp only
  rw [if_neg (by simp [hpub])]
  by_cases h1 : (s.authors.any fun a =>
      a.employee_id == e && a.publication_id == some p && a.isActive) = true
  · rw [if_pos h1]
    exact ⟨_, rfl⟩
  · rcases hconf with hc | hc
    · exact absurd hc h1
    · rw [if_neg h1, if_pos hc]
      exact ⟨_, rfl⟩

theorem recompute_pubs_any (t : Store) (p p2 : Nat) :
    ((recomputeCoAuthorCount t p).pubs.any fun q => q.id == p2) =
      (t.pubs.any fun q => q.id == p2) := by
  unfold recomputeCoAuthorCount setCoAuthorCount
  rw [List.any_map]
  congr 1
  funext q
  by_cases h : q.id = p <;> simp [h, Function.comp]

/-- C2: a successful assignment preserves the pairwise distinctness of
`employee_id` and `author_order` among the assignment records of each
publication; afterwards a second call for the same
`(employee_id, publication_id)` pair fails with a `ConflictError`, a
call by another registered employee for the already-taken
`author_order` fails with a `ConflictError`, and even a raw save that
bypasses the pre-checks (two racing writers) is rejected by the
partial unique indexes, creating no record. -/
theorem assignment_uniqueness (s : Store) (e p ord : Nat) (nm : Option String)
    (dp : Option Nat) (s1 : Store)
    (hok : assignAuthorToPublication s e p ord nm dp = .ok s1) :
    (uniqueAssignKeys s → uniqueAssignKeys s1) ∧
    (∀ ord2 nm2 dp2, ord2 ≠ 0 →
      ∃ m, assignAuthorToPublication s1 e p ord2 nm2 dp2 =
        .error (.conflict m)) ∧
    (∀ e2 nm2 dp2, e2 ≠ 0 →
      (∃ t ∈ s1.authors, t.employee_id = e2 ∧ t.publication_id = none ∧
        t.isActive = true) →
      ∃ m, assignAuthorToPublication s1 e2 p ord nm2 dp2 =
        .error (.conflict m)) ∧
    (∀ b : AuthorRec, b.publication_id = some p →
      (b.employee_id = e ∨ b.author_order = some ord) →
      ∃ m, saveAuthor s1 b = .error (.conflict m)) := by
  obtain ⟨a, hap, haa, hae, hao, hord1, hauth, hpub, hidx1, hidx2, hs1, hne, tmpl, htmpl⟩ :=
    assign_ok_shape s e p ord nm dp s1 hok
  have hmem : a ∈ s1.authors := by
    rw [hauth]
    exact List.mem_append_right _ (List.mem_singleton_self a)
  have hpub1 : (s1.pubs.any fun q => q.id == p) = true := by
    rw [hs1, recompute_pubs_any]
    simpa using hpub
  refine ⟨?_, ?_, ?_, ?_⟩
  · intro hU
    unfold uniqueAssignKeys at hU ⊢
    rw [hauth, List.pairwise_append]
    refine ⟨hU, List.pairwise_singleton _ _, ?_⟩
    intro x hx y hy
    simp only [List.mem_singleton] at hy
    subst hy
    intro hpeq _hpne
    rw [List.any_eq_false] at hidx1 hidx2
    constructor
    · intro hemp
      exact hidx1 x hx (by simp [hpeq, hap, hemp, hae])
    · intro hordeq
      exact hidx2 x hx (by simp [hpeq, hap, hordeq, hao])
  · intro ord2 nm2 dp2 hord2
    refine assign_conflict_of_existing s1 e p ord2 nm2 dp2 hne hord2 ?_ hpub1
      (Or.inl ?_)
    · rw [hauth, List.find?_append, htmpl]
      simp
    · rw [List.any_eq_true]
      exact ⟨a, hmem, by simp [hae, hap, haa]⟩
  · intro e2 nm2 dp2 he2 htm2
    refine assign_conflict_of_existing s1 e2 p ord nm2 dp2 he2
      (by omega) ?_ hpub1 (Or.inr ?_)
    · rw [List.find?_isSome]
      obtain ⟨t, ht, h1, h2, h3⟩ := htm2
      exact ⟨t, ht, by simp [h1, h2, h3]⟩
    · rw [List.any_eq_true]
      exact ⟨a, hmem, by simp [hap, hao, haa]⟩
  · intro b hbp hbk
    unfold saveAuthor
    rcases hbk with hbk | hbk
    · rw [if_pos ?hc1]
      · exact ⟨_, rfl⟩
      · case hc1 =>
        simp only [hbp, Option.isSome_some, Bool.true_and]
        rw [List.any_eq_true]
        exact ⟨a, hmem, by simp [hap, hbp, hae, hbk]⟩
    · by_cases h1 : (s1.authors.any fun c =>
          c.publication_id == b.publication_id && c.employee_id == b.employee_id) = true
      · rw [if_pos ?hc3]
        · exact ⟨_, rfl⟩
        · case hc3 =>
          rw [hbp] at h1 ⊢
          simpa using h1
      · rw [if_neg ?hc4, if_pos ?hc2]
        · exact ⟨_, rfl⟩
        · case hc2 =>
          simp only [hbp, Option.isSome_some, Bool.true_and]
          rw [List.any_eq_true]
          exact ⟨a, hmem, by simp [hap, hbp, hao, hbk]⟩
        · case hc4 =>
          rw [hbp] at h1 ⊢
          simpa using h1

/-- Witness for C2: in the concrete store, the uniqueness invariant holds
after the first assignment, a second assignment of employee 1 to
publication 5 is rejected with a conflict, a second employee cannot
take order 1 on publication 5, and a raw duplicate save is rejected by
the unique index. -/
theorem assignment_uniqueness_witness :
    uniqueAssignKeys demoStoreAssigned ∧
    (∃ m, assignAuthorToPublication demoStoreAssigned 1 5 2 none none =
      Except.error (ApiError.conflict m)) ∧
    (∃ m, saveAuthor demoStoreAssigned ⟨9, 1, "B", "x", 3, some 5, some 9, true⟩ =
      Except.error (ApiError.conflict m)) := by
  have h := assignment_uniqueness demoStore 1 5 1 none none demoStoreAssigned (by rfl)
  refine ⟨h.1 ?_, h.2.1 2 none none (by decide), h.2.2.2 _ rfl (Or.inl rfl)⟩
  unfold uniqueAssignKeys demoStore
  simp

/-- Under the assignment-by-duplication invariant, the controller's
conflict pre-check (any active record for the employee) is equivalent
to the specification's condition (an active unassigned record). -/
theorem active_any_iff_template (s : Store) (e : Nat) (hinv : templateInvFor s e) :
    (s.authors.any fun b => b.employee_id == e && b.isActive) = true ↔
      ∃ t ∈ s.authors, t.employee_id = e ∧ t.publication_id = none ∧
        t.isActive = true := by
  constructor
  · intro h
    rw [List.any_eq_true] at h
    obtain ⟨b, hb, hbp⟩ := h
    simp only [Bool.and_eq_true, beq_iff_eq] at hbp
    by_cases hbn : b.publication_id = none
    · exact ⟨b, hb, hbp.1, hbn, hbp.2⟩
    · exact hinv ⟨b, hb, hbp.1, hbn, hbp.2⟩
  · rintro ⟨t, ht, h1, h2, h3⟩
    rw [List.any_eq_true]
    exact ⟨t, ht, by simp [h1, h3]⟩

/-- A store with no records for employee 1 but a known department 3. -/
def emptyDeptStore : Store :=
  { authors := [], pubs := [], departments := [3], nextId := 0 }

/-- C3: over stores satisfying the assignment-by-duplication invariant
(every reachable store does), `registerAuthor` fails with a
`ConflictError` exactly when an active unassigned record already exists
for the employee id; when no such record exists it fails with a
`ValidationError` if the department is unknown, and otherwise appends
exactly one new unassigned record (`publication_id = null`,
`author_order = null`, `isActive = true`). -/
theorem registerAuthor_spec (s : Store) (e : Nat) (name pwd : String)
    (dept : Nat) (he : e ≠ 0) (hname : name.length ≤ 100)
    (hinv : templateInvFor s e) :
    ((∃ m, registerAuthor s e name pwd dept = .error (.conflict m)) ↔
      ∃ t ∈ s.authors, t.employee_id = e ∧ t.publication_id = none ∧
        t.isActive = true) ∧
    ((¬ ∃ t ∈ s.authors, t.employee_id = e ∧ t.publication_id = none ∧
        t.isActive = true) → dept ∉ s.departments →
      ∃ m, registerAuthor s e name pwd dept = .error (.validation m)) ∧
    ((¬ ∃ t ∈ s.authors, t.employee_id = e ∧ t.publication_id = none ∧
        t.isActive = true) → dept ∈ s.departments →
      registerAuthor s e name pwd dept = .ok
        { s with
          authors := s.authors ++
            [⟨s.nextId, e, strTrim name, strTrim pwd, dept, none, none, true⟩]
          nextId := s.nextId + 1 }) := by
  have hiff := active_any_iff_template s e hinv
  unfold registerAuthor
  rw [if_neg (by simpa using he), if_neg (by omega)]
  by_cases hany : (s.authors.any fun b => b.employee_id == e && b.isActive) = true
  · rw [if_pos hany]
    refine ⟨⟨fun _ => hiff.mp hany, fun _ => ⟨_, rfl⟩⟩, ?_, ?_⟩
    · intro hno _
      exact absurd (hiff.mp hany) hno
    · intro hno _
      exact absurd (hiff.mp hany) hno
  · rw [if_neg hany]
    refine ⟨⟨?_, ?_⟩, ?_, ?_⟩
    · rintro ⟨m, hm⟩
      by_cases hd : s.departments.contains dept = true
      · rw [if_neg (by simpa using hd)] at hm
        unfold saveAuthor at hm
        simp at hm
      · rw [if_pos (by simpa using hd)] at hm
        simp at hm
    · intro ht
      exact absurd (hiff.mpr ht) hany
    · intro _ hdept
      rw [if_pos (by simpa using hdept)]
      exact ⟨_, rfl⟩
    · intro _ hdept
      rw [if_neg (by simpa using hdept)]
      rfl

/-- Witness for C3: on the concrete `emptyDeptStore`, registering
employee 1 in department 3 succeeds and appends exactly the new
unassigned record. -/
theorem registerAuthor_spec_witness :
    registerAuthor emptyDeptStore 1 "A" "pw" 3 = Except.ok
      { emptyDeptStore with
        authors := [⟨0, 1, "A", "pw", 3, none, none, true⟩]
        nextId := 1 } := by
  have h := (registerAuthor_spec emptyDeptStore 1 "A" "pw" 3 (by decide)
    (by decide) (by rintro ⟨t, ht, -⟩; simp [emptyDeptStore] at ht)).2.2
    (by rintro ⟨t, ht, -⟩; simp [emptyDeptStore] at ht)
    (by simp [emptyDeptStore])
  have ha : strTrim "A" = "A" := by decide
  have hp : strTrim "pw" = "pw" := by decide
  simpa [emptyDeptStore, ha, hp] using h

/-- The store of `deleteUnassignedAuthor_claim_counterexample`: employee 7
has one active assignment record on publication 5 and no unassigned
template record. -/
def ceStoreC4 : Store :=
  { authors := [⟨0, 7, "B", "pw", 3, some 5, some 1, true⟩]
    pubs := [⟨5, 1⟩]
    departments := [3]
    nextId := 1 }

/-- Counterexample for C4 as stated: on `ceStoreC4`, an assignment record
for employee 7 exists, yet `deleteUnassignedAuthor 7` fails with a
`NotFoundError` (the unassigned-record lookup runs first), not with the
`ConflictError` the claim requires. -/
theorem deleteUnassignedAuthor_claim_counterexample :
    0 < ceStoreC4.authors.countP
      (fun a => a.employee_id == 7 && !(a.publication_id == none)) ∧
    deleteUnassignedAuthor ceStoreC4 7 =
      Except.error (ApiError.notFound "Unassigned author not found") ∧
    ¬ ∃ m, deleteUnassignedAuthor ceStoreC4 7 =
      Except.error (ApiError.conflict m) := by
  refine ⟨by decide, by rfl, ?_⟩
  rintro ⟨m, hm⟩
  rw [show deleteUnassignedAuthor ceStoreC4 7 =
    Except.error (ApiError.notFound "Unassigned author not found") from rfl] at hm
  simp at hm

/-- C4 (amended): for every employee id `e`, `deleteUnassignedAuthor e`
returns a `NotFoundError` when no unassigned record exists for `e`;
when an unassigned record exists it fails with a `ConflictError`
(deleting nothing) if at least one assignment record references `e`,
and otherwise succeeds, removing exactly one record — the first
unassigned record for `e` — and leaving every other author record, the
publications and the departments unchanged. -/
theorem deleteUnassignedAuthor_spec (s : Store) (e : Nat) (he : e ≠ 0)
    (hids : (s.authors.map (fun a => a.id)).Nodup) :
    ((s.authors.find? (fun a => a.employee_id == e && a.publication_id == none) = none) →
      deleteUnassignedAuthor s e =
        .error (.notFound "Unassigned author not found")) ∧
    (∀ author,
      s.authors.find? (fun a => a.employee_id == e && a.publication_id == none) =
        some author →
      0 < s.authors.countP (fun a => a.employee_id == e && !(a.publication_id == none)) →
      ∃ m, deleteUnassignedAuthor s e = .error (.conflict m)) ∧
    (∀ author,
      s.authors.find? (fun a => a.employee_id == e && a.publication_id == none) =
        some author →
      s.authors.countP (fun a => a.employee_id == e && !(a.publication_id == none)) = 0 →
      author.employee_id = e ∧ author.publication_id = none ∧
      ∃ l1 l2, s.authors = l1 ++ author :: l2 ∧
        deleteUnassignedAuthor s e =
          .ok ({ s with authors := l1 ++ l2 }, author)) := by
  refine ⟨?_, ?_, ?_⟩
  · intro hfind
    unfold deleteUnassignedAuthor
    rw [if_neg (by simpa using he), hfind]
  · intro author hfind hcnt
    unfold deleteUnassignedAuthor
    rw [if_neg (by simpa using he), hfind]
    simp only
    rw [if_pos hcnt]
    exact ⟨_, rfl⟩
  · intro author hfind hcnt
    have hpa := List.find?_some hfind
    simp only [Bool.and_eq_true, beq_iff_eq] at hpa
    have hmem := List.mem_of_find?_eq_some hfind
    have hinj := List.inj_on_of_nodup_map hids
    have hfd : s.authors.find? (fun a => a.id == author.id) = some author := by
      have hsome : (s.authors.find? (fun a => a.id == author.id)).isSome := by
        rw [List.find?_isSome]
        exact ⟨author, hmem, by simp⟩
      obtain ⟨doc, hdoc⟩ := Option.isSome_iff_exists.mp hsome
      have hdmem := List.mem_of_find?_eq_some hdoc
      have hdid := List.find?_some hdoc
      simp only [beq_iff_eq] at hdid
      have hda : doc = author := hinj hdmem hmem hdid
      rw [hdoc, hda]
    have hpnone : author.publication_id = none := by
      rcases hq : author.publication_id with _ | v
      · rfl
      · exact absurd hq (by simp [hpa.2])
    obtain ⟨a2, l1, l2, -, hpa2, hsplit, herase⟩ :=
      List.exists_of_eraseP hmem (p := fun a => a.id == author.id) (by simp)
    have ha2 : a2 = author := by
      simp only [beq_iff_eq] at hpa2
      refine hinj ?_ hmem hpa2
      rw [hsplit]
      exact List.mem_append_right _ (List.mem_cons_self a2 l2)
    subst ha2
    refine ⟨hpa.1, hpnone, l1, l2, hsplit, ?_⟩
    unfold deleteUnassignedAuthor
    rw [if_neg (by simpa using he), hfind]
    simp only
    rw [if_neg (by omega)]
    unfold removeAssignment
    rw [hfd]
    simp only [hpnone, Except.ok.injEq, Prod.mk.injEq]
    exact ⟨by rw [herase], trivial⟩

/-- Witness for C4 (amended): on `demoStore` with its single unassigned
record for employee 1, the delete succeeds and removes exactly that
record. -/
theorem deleteUnassignedAuthor_spec_witness :
    deleteUnassignedAuthor demoStore 1 =
      Except.ok ({ demoStore with authors := [] },
        ⟨0, 1, "A", "pw", 3, none, none, true⟩) := by
  have h := (deleteUnassignedAuthor_spec demoStore 1 (by decide)
    (by simp [demoStore])).2.2
    ⟨0, 1, "A", "pw", 3, none, none, true⟩ (by rfl) (by rfl)
  obtain ⟨-, -, l1, l2, hsplit, hres⟩ := h
  rcases l1 with _ | ⟨y, ys⟩
  · have h2 : l2 = [] := by
      simpa [demoStore] using hsplit
    subst h2
    simpa using hres
  · exfalso
    simp [demoStore] at hsplit

/-- C10: when the publication exists, `deletePublication` removes every
author assignment record referencing it, reports their number, keeps
every other author record, and erases the publication document — so no
dangling assignment records remain. -/
theorem deletePublication_spec (s : Store) (p : Nat) (s1 : Store) (n : Nat)
    (h : deletePublication s p = .ok (s1, n)) :
    (∀ a ∈ s1.authors, a.publication_id ≠ some p) ∧
    n = (s.authors.filter (fun a => a.publication_id == some p)).length ∧
    (∀ a ∈ s.authors, a.publication_id ≠ some p → a ∈ s1.authors) ∧
    s1.pubs = s.pubs.eraseP (fun q => q.id == p) ∧
    s1.departments = s.departments := by
  unfold deletePublication at h
  split at h
  · exact absurd h (by simp)
  · simp only [Except.ok.injEq, Prod.mk.injEq] at h
    obtain ⟨hs1, hn⟩ := h
    subst hs1
    refine ⟨?_, hn.symm, ?_, rfl, rfl⟩
    · intro a ha
      have := (List.mem_filter.mp ha).2
      simp only [Bool.not_eq_eq_eq_not, Bool.not_true, beq_eq_false_iff_ne,
        ne_eq] at this
      simpa using this
    · intro a ha hne
      exact List.mem_filter.mpr ⟨ha, by simpa using hne⟩

/-- `demoStoreAssigned` after deleting publication 5. -/
def demoStoreDeleted : Store :=
  { authors := [⟨0, 1, "A", "pw", 3, none, none, true⟩]
    pubs := []
    departments := [3]
    nextId := 2 }

/-- Witness for C10: deleting publication 5 from `demoStoreAssigned`
removes its single assignment record, reports one removed assignment,
and leaves no author referencing publication 5. -/
theorem deletePublication_spec_witness :
    deletePublication demoStoreAssigned 5 =
      Except.ok (demoStoreDeleted, 1) ∧
    ∀ a ∈ demoStoreDeleted.authors, a.publication_id ≠ some 5 := by
  refine ⟨by rfl, ?_⟩
  exact (deletePublication_spec demoStoreAssigned 5 demoStoreDeleted 1 (by rfl)).1

/-! ### Search and pagination layer

Embedding of `privateData.controller.js` (user pagination and the three
author/user searches, publication pagination, simple text search) and of
the query predicates of the publication model. Lists stand for the
stored collections; the storage engine's sort is modelled by a stable
insertion sort with the query's comparator. -/

/-- Substring test on character lists (structural recursion). -/
def subList (needle : List Char) : List Char → Bool
  | [] => needle.isEmpty
  | c :: t => needle.isPrefixOf (c :: t) || subList needle t

/-- ASCII-style lowercasing, character by character. -/
def strLower (s : String) : String :=
  ⟨s.data.map Char.toLower⟩

/-- Case-insensitive substring containment: the semantics of a
`$regex: fragment, $options: "i"` filter for a plain fragment. -/
def strContainsCI (hay needle : String) : Bool :=
  subList (strLower needle).data (strLower hay).data

/-- Insert into a sorted list (helper of `sortWith`). -/
def insertLe (le : α → α → Bool) (x : α) : List α → List α
  | [] => [x]
  | y :: ys => if le x y then x :: y :: ys else y :: insertLe le x ys

/-- Insertion sort: the model of the storage engine's `.sort()`. -/
def sortWith (le : α → α → Bool) : List α → List α
  | [] => []
  | x :: xs => insertLe le x (sortWith le xs)

/-- One document of the `users` collection (`user.model.js`). -/
structure UserRec where
  id : Nat
  employee_id : String
  fullname : String
  email : String
  password : String
  role : String
  createdAtTs : Nat
  updatedAtTs : Nat
deriving DecidableEq, Repr

/-- A user document after the `.select("-password")` projection: every
field except the credential. -/
structure UserView where
  id : Nat
  employee_id : String
  fullname : String
  email : String
  role : String
  createdAtTs : Nat
  updatedAtTs : Nat
deriving DecidableEq, Repr

/-- The `-password` projection applied to one document. -/
def projUser (u : UserRec) : UserView :=
  { id := u.id
    employee_id := u.employee_id
    fullname := u.fullname
    email := u.email
    role := u.role
    createdAtTs := u.createdAtTs
    updatedAtTs := u.updatedAtTs }

/-- Blank out the password of a document (used to state that search
results are independent of stored passwords). -/
def scrubUser (u : UserRec) : UserRec :=
  { u with password := "" }

/-- Ascending comparison by one sort field of the user collection. -/
def userFieldLe (field : String) (a b : UserView) : Bool :=
  if field == "createdAt" then decide (a.createdAtTs ≤ b.createdAtTs)
  else if field == "updatedAt" then decide (a.updatedAtTs ≤ b.updatedAtTs)
  else if field == "fullname" then decide (a.fullname ≤ b.fullname)
  else if field == "email" then decide (a.email ≤ b.email)
  else if field == "employee_id" then decide (a.employee_id ≤ b.employee_id)
  else true

/-- The `{ [sortField]: sortOrder }` sort specification:
`order === "asc" ? 1 : -1`. -/
def userLe (field order : String) (a b : UserView) : Bool :=
  if order == "asc" then userFieldLe field a b else userFieldLe field b a

/-- `allowedSortFields` of the user search handlers, with the silent
fallback to `createdAt`. -/
def userSortField (sortBy : String) : String :=
  if ["createdAt", "updatedAt", "fullname", "email", "employee_id"].contains sortBy
  then sortBy else "createdAt"

/-- `Math.max(1, parseInt(page))` with default 1. -/
def effPage (page : Option Int) : Nat :=
  (max 1 (page.getD 1)).toNat

/-- `Math.max(1, Math.min(100, parseInt(limit)))` with default 10. -/
def effLimit (lim : Option Int) : Nat :=
  (max 1 (min 100 (lim.getD 10))).toNat

/-- `Math.ceil(total / limit)` for positive integer `limit`. -/
def ceilDiv (total lim : Nat) : Nat :=
  (total + lim - 1) / lim

/-- The response shape of the user pagination/search handlers. -/
structure PagedUsers where
  users : List UserView
  currentPage : Nat
  totalPages : Nat
  totalUsers : Nat
  hasNextPage : Bool
  hasPrevPage : Bool
deriving DecidableEq, Repr

/-- Shared result-shaping of the user handlers: sort the projected
documents, skip `(page-1)*limit`, take `limit`, and report the
pagination metadata. -/
def pageUsers (views : List UserView) (pageNum limitNum : Nat)
    (sortField order : String) : PagedUsers :=
  let totalUsers := views.length
  let sorted := sortWith (userLe sortField order) views
  { users := (sorted.drop ((pageNum - 1) * limitNum)).take limitNum
    currentPage := pageNum
    totalPages := ceilDiv totalUsers limitNum
    totalUsers := totalUsers
    hasNextPage := decide (pageNum < ceilDiv totalUsers limitNum)
    hasPrevPage := decide (1 < pageNum) }

/-- `getUsersWithPagination` (`privateData.controller.js`): no filter,
clamped page and limit, allow-listed sort field with silent fallback. -/
def getUsersWithPagination (users : List UserRec) (page lim : Option Int)
    (sortBy order : String) : PagedUsers :=
  pageUsers (users.map projUser) (effPage page) (effLimit lim)
    (userSortField sortBy) order

/-- `searchUserWithFullName`: case-insensitive substring filter on
`fullname`, then the shared pagination contract; password excluded by
the projection. -/
def searchUserWithFullName (users : List UserRec) (fullname : String)
    (page lim : Option Int) (sortBy order : String) :
    Except ApiError PagedUsers :=
  if (strTrim fullname).isEmpty then
    .error (.validation "Full name is required for search")
  else
    .ok (pageUsers
      ((users.filter (fun u => strContainsCI u.fullname (strTrim fullname))).map projUser)
      (effPage page) (effLimit lim) (userSortField sortBy) order)

/-- `searchUserWithEmail`: same contract, filtering on `email`. -/
def searchUserWithEmail (users : List UserRec) (email : String)
    (page lim : Option Int) (sortBy order : String) :
    Except ApiError PagedUsers :=
  if (strTrim email).isEmpty then
    .error (.validation "Email is required for search")
  else
    .ok (pageUsers
      ((users.filter (fun u => strContainsCI u.email (strTrim email))).map projUser)
      (effPage page) (effLimit lim) (userSortField sortBy) order)

/-- `searchUserWithEmployeeId`: same contract, filtering on
`employee_id`. -/
def searchUserWithEmployeeId (users : List UserRec) (employeeId : String)
    (page lim : Option Int) (sortBy order : String) :
    Except ApiError PagedUsers :=
  if (strTrim employeeId).isEmpty then
    .error (.validation "Employee ID is required for search")
  else
    .ok (pageUsers
      ((users.filter (fun u => strContainsCI u.employee_id (strTrim employeeId))).map projUser)
      (effPage page) (effLimit lim) (userSortField sortBy) order)

/-- A calendar date, ordered lexicographically — the order MongoDB uses
on `Date` values of valid calendar dates. -/
structure DateYMD where
  y : Nat
  m : Nat
  d : Nat
deriving DecidableEq, Repr

def dateLe (a b : DateYMD) : Bool :=
  decide (a.y < b.y) || (a.y == b.y &&
    (decide (a.m < b.m) || (a.m == b.m && decide (a.d ≤ b.d))))

def dateLt (a b : DateYMD) : Bool :=
  decide (a.y < b.y) || (a.y == b.y &&
    (decide (a.m < b.m) || (a.m == b.m && decide (a.d < b.d))))

/-- One document of the `publications` collection, restricted to the
fields the search layer reads (union of the two schema revisions of
`publication.model.js`). `publicationYear`/`publicationMonth` are kept
as numbers; the stored strings compare equal exactly when the numbers
do. -/
structure SPub where
  id : Nat
  title : String
  abstract : String
  keywords : List String
  publication_date : DateYMD
  publicationYear : Nat
  publicationMonth : Nat
  coAuthorCount : Nat
deriving DecidableEq, Repr

/-- Ascending comparison by one sort field of the publication
collection (`validSortFields`), flipped for `desc`. -/
def pubFieldLe (field order : String) (a b : SPub) : Bool :=
  let asc := fun x y : SPub =>
    if field == "publication_date" then dateLe x.publication_date y.publication_date
    else if field == "title" then decide (x.title ≤ y.title)
    else if field == "coAuthorCount" then decide (x.coAuthorCount ≤ y.coAuthorCount)
    else true
  if order == "asc" then asc a b else asc b a

/-- The response shape of `getPublicationsPagination`: items plus the
raw `page` and `limit` echoes (no totals are reported). -/
structure PagedPubs where
  publications : List SPub
  page : Int
  limit : Int
deriving DecidableEq, Repr

/-- `getPublicationsPagination` (`privateData.controller.js`): parses
`page` and `limit` with `parseInt` and uses them unclamped, rejects a
`sortBy` outside `validSortFields` with a 400 error, then sorts, skips
`(page-1)*limit` and takes `limit`. Negative skip/limit values are
clamped at zero (`Int.toNat`), matching the storage API's rejection of
negative arguments. -/
def getPublicationsPagination (pubs : List SPub) (page lim : Option Int)
    (sortBy order : String) : Except ApiError PagedPubs :=
  let pageNumber : Int := page.getD 1
  let limitNumber : Int := lim.getD 10
  if !(["publication_date", "title", "coAuthorCount"].contains sortBy) then
    .error (.validation "Invalid sort field")
  else
    .ok { publications :=
            ((sortWith (pubFieldLe sortBy order) pubs).drop
              (((pageNumber - 1) * limitNumber).toNat)).take limitNumber.toNat
          page := pageNumber
          limit := limitNumber }

/-- Model of the storage engine's weighted `$text` score, with the
weights declared by the `publication_text_index` of
`publication.model.js` (`title: 3, keywords: 2, abstract: 1`): each
field containing the query contributes its weight. -/
def textScore (q : String) (pub : SPub) : Nat :=
  (if strContainsCI pub.title q then 3 else 0) +
  (if pub.keywords.any (fun k => strContainsCI k q) then 2 else 0) +
  (if strContainsCI pub.abstract q then 1 else 0)

/-- The `$sort: { score: { $meta: "textScore" } }` comparator:
descending by relevance score. -/
def scoreLe (q : String) (a b : SPub) : Bool :=
  decide (textScore q b ≤ textScore q a)

/-- The sort stage of `Publication.advancedSearch`: when a text query is
present and `sortBy === "relevance"`, sort by the relevance score;
otherwise sort by the requested field and order. -/
def advancedSearchSort (textQuery sortBy order : String)
    (l : List SPub) : List SPub :=
  if !(strTrim textQuery).isEmpty && sortBy == "relevance" then
    sortWith (scoreLe textQuery) l
  else
    sortWith (pubFieldLe sortBy order) l

/-- The year filter of `Publication.advancedSearch`:
`publication_date ∈ [year-01-01, (year+1)-01-01)`. -/
def advYearMatch (y : Nat) (pub : SPub) : Bool :=
  dateLe ⟨y, 1, 1⟩ pub.publication_date &&
    dateLt pub.publication_date ⟨y + 1, 1, 1⟩

/-- The find filter of `Publication.getPublicationsByYear`: the same
half-open date interval, or-ed with equality on the stored
`publicationYear` string. -/
def byYearMatch (y : Nat) (pub : SPub) : Bool :=
  (dateLe ⟨y, 1, 1⟩ pub.publication_date &&
    dateLt pub.publication_date ⟨y + 1, 1, 1⟩) || (pub.publicationYear == y)

/-- The selection stage of `Publication.getPublicationsByYear` (before
sorting and pagination). -/
def getPublicationsByYearSelect (pubs : List SPub) (y : Nat) : List SPub :=
  pubs.filter (byYearMatch y)

/-- The specification's half-open interval `[y-01-01, (y+1)-01-01)` in
the date order. -/
def inYearRange (y : Nat) (d : DateYMD) : Prop :=
  dateLe ⟨y, 1, 1⟩ d = true ∧ dateLt d ⟨y + 1, 1, 1⟩ = true

/-- The pre-save derivation invariant of `publication.model.js`:
`publication_date` is rebuilt from `publicationYear` and
`publicationMonth` (`new Date(year, month-1, 1)`), and the month has
passed its 1–12 schema validation. -/
def derivedDateInv (pub : SPub) : Prop :=
  pub.publication_date = ⟨pub.publicationYear, pub.publicationMonth, 1⟩ ∧
    1 ≤ pub.publicationMonth ∧ pub.publicationMonth ≤ 12

/-- The response shape of `simpleTextSearch`. -/
structure TextSearchPage where
  publications : List SPub
  page : Int
  limit : Int
  totalCount : Nat
  totalPages : Nat
  hasNextPage : Bool
  hasPrevPage : Bool
deriving DecidableEq, Repr

/-- `simpleTextSearch` (`privateData.controller.js`): requires a
non-blank query, filters to text matches (positive relevance score),
always sorts by the relevance score, then paginates with the raw
parsed `page` and `limit`. -/
def simpleTextSearch (pubs : List SPub) (q : String)
    (page lim : Option Int) : Except ApiError TextSearchPage :=
  let pageNumber : Int := page.getD 1
  let limitNumber : Int := lim.getD 10
  if (strTrim q).isEmpty then
    .error (.validation "Search query is required")
  else
    let matched := pubs.filter (fun p => decide (0 < textScore q p))
    let sorted := sortWith (scoreLe q) matched
    let totalCount := matched.length
    let totalPages := ceilDiv totalCount limitNumber.toNat
    .ok { publications :=
            ((sorted.drop (((pageNumber - 1) * limitNumber).toNat)).take
              limitNumber.toNat)
          page := pageNumber
          limit := limitNumber
          totalCount := totalCount
          totalPages := totalPages
          hasNextPage := decide (pageNumber < (totalPages : Int))
          hasPrevPage := decide (1 < pageNumber) }

/-! ### Sorting lemmas -/

theorem length_insertLe (le : α → α → Bool) (x : α) (l : List α) :
    (insertLe le x l).length = l.length + 1 := by
  induction l with
  | nil => rfl
  | cons y ys ih =>
    unfold insertLe
    by_cases h : le x y = true
    · simp [h]
    · simp [h, ih]

theorem length_sortWith (le : α → α → Bool) (l : List α) :
    (sortWith le l).length = l.length := by
  induction l with
  | nil => rfl
  | cons x xs ih =>
    unfold sortWith
    rw [length_insertLe, ih]
    rfl

theorem mem_insertLe (le : α → α → Bool) (x b : α) (l : List α) :
    b ∈ insertLe le x l ↔ b = x ∨ b ∈ l := by
  induction l with
  | nil => simp [insertLe]
  | cons y ys ih =>
    unfold insertLe
    by_cases h : le x y = true
    · simp [h]
    · rw [if_neg h]
      simp only [List.mem_cons, ih]
      tauto

theorem pairwise_insertLe (le : α → α → Bool)
    (htot : ∀ a b, le a b = true ∨ le b a = true)
    (htrans : ∀ a b c, le a b = true → le b c = true → le a c = true)
    (x : α) (l : List α) (h : l.Pairwise (fun a b => le a b = true)) :
    (insertLe le x l).Pairwise (fun a b => le a b = true) := by
  induction l with
  | nil => simp [insertLe]
  | cons y ys ih =>
    rw [List.pairwise_cons] at h
    unfold insertLe
    by_cases hxy : le x y = true
    · rw [if_pos hxy, List.pairwise_cons]
      refine ⟨?_, List.pairwise_cons.mpr h⟩
      intro b hb
      rcases List.mem_cons.mp hb with rfl | hb
      · exact hxy
      · exact htrans x y b hxy (h.1 b hb)
    · rw [if_neg hxy, List.pairwise_cons]
      refine ⟨?_, ih h.2⟩
      intro b hb
      rcases (mem_insertLe le x b ys).mp hb with rfl | hb
      · rcases htot b y with hby | hyb
        · exact absurd hby hxy
        · exact hyb
      · exact h.1 b hb

theorem pairwise_sortWith (le : α → α → Bool)
    (htot : ∀ a b, le a b = true ∨ le b a = true)
    (htrans : ∀ a b c, le a b = true → le b c = true → le a c = true)
    (l : List α) :
    (sortWith le l).Pairwise (fun a b => le a b = true) := by
  induction l with
  | nil => simp [sortWith]
  | cons x xs ih =>
    unfold sortWith
    exact pairwise_insertLe le htot htrans x _ ih

theorem map_insertLe (f : α → β) (le : β → β → Bool) (x : α) (l : List α) :
    (insertLe (fun a b => le (f a) (f b)) x l).map f =
      insertLe le (f x) (l.map f) := by
  induction l with
  | nil => rfl
  | cons y ys ih =>
    show (insertLe (fun a b => le (f a) (f b)) x (y :: ys)).map f = _
    unfold insertLe
    by_cases h : le (f x) (f y) = true
    · simp [h]
    · simp [h, ih]

theorem map_sortWith (f : α → β) (le : β → β → Bool) (l : List α) :
    (sortWith (fun a b => le (f a) (f b)) l).map f = sortWith le (l.map f) := by
  induction l with
  | nil => rfl
  | cons x xs ih =>
    show (insertLe (fun a b => le (f a) (f b)) x (sortWith _ xs)).map f = _
    rw [map_insertLe, ih]
    rfl

theorem ceilDiv_le_iff (t l k : Nat) (hl : 1 ≤ l) :
    ceilDiv t l ≤ k ↔ t ≤ k * l := by
  unfold ceilDiv
  rw [Nat.lt_succ_iff.symm, Nat.div_lt_iff_lt_mul (by omega), Nat.succ_mul]
  generalize k * l = m
  omega

/-- 101 identically-dated publications, used to exhibit the missing
limit clamp of `getPublicationsPagination`. -/
def pubs101 : List SPub :=
  (List.range 101).map (fun i => ⟨i, "t", "a", [], ⟨2020, 1, 1⟩, 2020, 1, 0⟩)

/-- Counterexample for C5 as stated: `getPublicationsPagination` is a
search/pagination operation, yet a request with `limit = 101` returns
101 items — the effective limit is not clamped to the 1–100 range. -/
theorem pagination_contract_counterexample :
    (getPublicationsPagination pubs101 (some 1) (some 101)
        "publication_date" "desc").map (fun r => r.publications.length) =
      Except.ok 101 ∧ ¬(101 ≤ 100) := by
  exact ⟨by rfl, by decide⟩

/-- The shared pagination contract of `pageUsers`: page echoed, total is
the number of matched documents, page size is `min limit (total - skip)`,
`totalPages` is the least `k` with `total ≤ k*limit`, and the boundary
flags match. -/
theorem pageUsers_contract (views : List UserView) (pageNum limitNum : Nat)
    (sortField order : String) (hl : 1 ≤ limitNum) :
    (pageUsers views pageNum limitNum sortField order).currentPage = pageNum ∧
    (pageUsers views pageNum limitNum sortField order).totalUsers = views.length ∧
    (pageUsers views pageNum limitNum sortField order).users.length =
      min limitNum (views.length - (pageNum - 1) * limitNum) ∧
    (∀ k, (pageUsers views pageNum limitNum sortField order).totalPages ≤ k ↔
      views.length ≤ k * limitNum) ∧
    ((pageUsers views pageNum limitNum sortField order).hasNextPage = true ↔
      pageNum * limitNum < views.length) ∧
    ((pageUsers views pageNum limitNum sortField order).hasPrevPage = true ↔
      1 < pageNum) := by
  have hlen : (sortWith (userLe sortField order) views).length = views.length :=
    length_sortWith _ _
  refine ⟨rfl, rfl, ?_, ?_, ?_, ?_⟩
  · unfold pageUsers
    simp only [List.length_take, List.length_drop, hlen]
  · intro k
    unfold pageUsers
    simp only
    exact ceilDiv_le_iff views.length limitNum k hl
  · unfold pageUsers
    simp only [decide_eq_true_eq]
    have h := ceilDiv_le_iff views.length limitNum pageNum hl
    omega
  · unfold pageUsers
    simp only [decide_eq_true_eq]

/-- C5 (amended): the user pagination/search operations clamp the page to
`max(1, page)` (default 1) and the limit to 1–100 (default 10), skip
`(page-1)*limit`, return at most `limit` items (exactly
`min limit (total - skip)` for the unfiltered listing), and report
`totalPages = ceil(total/limit)` (the least `k` with `total ≤ k*limit`),
`hasNextPage ↔ page*limit < total` (equivalently `page < totalPages`)
and `hasPrevPage ↔ page > 1`; `getPublicationsPagination`, by contrast,
uses the raw parsed page and limit without clamping and reports only
them (see the counterexample). -/
theorem pagination_contract (users : List UserRec) (page lim : Option Int)
    (sortBy order : String) :
    1 ≤ effLimit lim ∧ effLimit lim ≤ 100 ∧
    1 ≤ (getUsersWithPagination users page lim sortBy order).currentPage ∧
    (getUsersWithPagination users page lim sortBy order).currentPage = effPage page ∧
    (getUsersWithPagination users page lim sortBy order).totalUsers = users.length ∧
    (getUsersWithPagination users page lim sortBy order).users.length =
      min (effLimit lim) (users.length - (effPage page - 1) * effLimit lim) ∧
    (∀ k, (getUsersWithPagination users page lim sortBy order).totalPages ≤ k ↔
      users.length ≤ k * effLimit lim) ∧
    ((getUsersWithPagination users page lim sortBy order).hasNextPage = true ↔
      effPage page * effLimit lim < users.length) ∧
    ((getUsersWithPagination users page lim sortBy order).hasPrevPage = true ↔
      1 < effPage page) ∧
    (∀ frag out, searchUserWithFullName users frag page lim sortBy order =
        .ok out →
      out.currentPage = effPage page ∧
      out.totalUsers =
        (users.filter (fun u => strContainsCI u.fullname (strTrim frag))).length ∧
      out.users.length =
        min (effLimit lim) (out.totalUsers - (effPage page - 1) * effLimit lim) ∧
      (∀ k, out.totalPages ≤ k ↔ out.totalUsers ≤ k * effLimit lim) ∧
      (out.hasNextPage = true ↔ effPage page * effLimit lim < out.totalUsers) ∧
      (out.hasPrevPage = true ↔ 1 < effPage page)) ∧
    (∀ frag out, searchUserWithEmail users frag page lim sortBy order =
        .ok out →
      out.currentPage = effPage page ∧
      out.totalUsers =
        (users.filter (fun u => strContainsCI u.email (strTrim frag))).length ∧
      out.users.length =
        min (effLimit lim) (out.totalUsers - (effPage page - 1) * effLimit lim) ∧
      (∀ k, out.totalPages ≤ k ↔ out.totalUsers ≤ k * effLimit lim) ∧
      (out.hasNextPage = true ↔ effPage page * effLimit lim < out.totalUsers) ∧
      (out.hasPrevPage = true ↔ 1 < effPage page)) ∧
    (∀ frag out, searchUserWithEmployeeId users frag page lim sortBy order =
        .ok out →
      out.currentPage = effPage page ∧
      out.totalUsers =
        (users.filter (fun u => strContainsCI u.employee_id (strTrim frag))).length ∧
      out.users.length =
        min (effLimit lim) (out.totalUsers - (effPage page - 1) * effLimit lim) ∧
      (∀ k, out.totalPages ≤ k ↔ out.totalUsers ≤ k * effLimit lim) ∧
      (out.hasNextPage = true ↔ effPage page * effLimit lim < out.totalUsers) ∧
      (out.hasPrevPage = true ↔ 1 < effPage page)) := by
  have hl1 : 1 ≤ effLimit lim := by
    unfold effLimit
    omega
  have hl100 : effLimit lim ≤ 100 := by
    unfold effLimit
    omega
  have hp1 : 1 ≤ effPage page := by
    unfold effPage
    omega
  have hlen : (sortWith (userLe (userSortField sortBy) order)
      (users.map projUser)).length = users.length := by
    rw [length_sortWith, List.length_map]
  refine ⟨hl1, hl100, hp1, rfl, ?_, ?_, ?_, ?_, ?_, ?_, ?_, ?_⟩
  · unfold getUsersWithPagination pageUsers
    simp only [List.length_map]
  · unfold getUsersWithPagination pageUsers
    simp only [List.length_take, List.length_drop, hlen, List.length_map]
  · intro k
    unfold getUsersWithPagination pageUsers
    simp only [List.length_map]
    exact ceilDiv_le_iff users.length (effLimit lim) k hl1
  · unfold getUsersWithPagination pageUsers
    simp only [List.length_map, decide_eq_true_eq]
    have h := ceilDiv_le_iff users.length (effLimit lim) (effPage page) hl1
    omega
  · unfold getUsersWithPagination pageUsers
    simp only [decide_eq_true_eq]
  · intro frag out hout
    unfold searchUserWithFullName at hout
    by_cases hb : (strTrim frag).isEmpty = true
    · rw [if_pos hb] at hout
      exact absurd hout (by simp)
    · rw [if_neg hb] at hout
      simp only [Except.ok.injEq] at hout
      subst hout
      have hP := pageUsers_contract
        ((users.filter (fun u => strContainsCI u.fullname (strTrim frag))).map projUser)
        (effPage page) (effLimit lim) (userSortField sortBy) order hl1
      refine ⟨hP.1, ?_, ?_, ?_, hP.2.2.2.2.1, hP.2.2.2.2.2⟩
      · rw [hP.2.1, List.length_map]
      · rw [hP.2.2.1, hP.2.1]
      · intro k
        exact hP.2.2.2.1 k
  · intro frag out hout
    unfold searchUserWithEmail at hout
    by_cases hb : (strTrim frag).isEmpty = true
    · rw [if_pos hb] at hout
      exact absurd hout (by simp)
    · rw [if_neg hb] at hout
      simp only [Except.ok.injEq] at hout
      subst hout
      have hP := pageUsers_contract
        ((users.filter (fun u => strContainsCI u.email (strTrim frag))).map projUser)
        (effPage page) (effLimit lim) (userSortField sortBy) order hl1
      refine ⟨hP.1, ?_, ?_, ?_, hP.2.2.2.2.1, hP.2.2.2.2.2⟩
      · rw [hP.2.1, List.length_map]
      · rw [hP.2.2.1, hP.2.1]
      · intro k
        exact hP.2.2.2.1 k
  · intro frag out hout
    unfold searchUserWithEmployeeId at hout
    by_cases hb : (strTrim frag).isEmpty = true
    · rw [if_pos hb] at hout
      exact absurd hout (by simp)
    · rw [if_neg hb] at hout
      simp only [Except.ok.injEq] at hout
      subst hout
      have hP := pageUsers_contract
        ((users.filter (fun u => strContainsCI u.employee_id (strTrim frag))).map projUser)
        (effPage page) (effLimit lim) (userSortField sortBy) order hl1
      refine ⟨hP.1, ?_, ?_, ?_, hP.2.2.2.2.1, hP.2.2.2.2.2⟩
      · rw [hP.2.1, List.length_map]
      · rw [hP.2.2.1, hP.2.1]
      · intro k
        exact hP.2.2.2.1 k

/-- Counterexample for C6 as stated: `getPublicationsPagination` rejects
an unlisted `sortBy` value with a 400 validation error instead of
silently falling back to a default sort field. -/
theorem sortBy_fallback_counterexample :
    getPublicationsPagination [] (some 1) (some 10) "bogus" "desc" =
      Except.error (ApiError.validation "Invalid sort field") := by
  rfl

/-- C6 (amended): the user pagination/search operations silently fall
back to sorting by `createdAt` whenever `sortBy` is outside their
allow-list — the request still succeeds; `getPublicationsPagination`,
by contrast, rejects an unlisted `sortBy` with a 400 error (see the
counterexample). -/
theorem sortBy_fallback (users : List UserRec) (page lim : Option Int)
    (order sortBy : String)
    (h : sortBy ∉ ["createdAt", "updatedAt", "fullname", "email", "employee_id"]) :
    getUsersWithPagination users page lim sortBy order =
      getUsersWithPagination users page lim "createdAt" order ∧
    (∀ frag, searchUserWithFullName users frag page lim sortBy order =
      searchUserWithFullName users frag page lim "createdAt" order) ∧
    (∀ frag, searchUserWithEmail users frag page lim sortBy order =
      searchUserWithEmail users frag page lim "createdAt" order) ∧
    (∀ frag, searchUserWithEmployeeId users frag page lim sortBy order =
      searchUserWithEmployeeId users frag page lim "createdAt" order) := by
  have hf : userSortField sortBy = "createdAt" := by
    unfold userSortField
    rw [if_neg (by simpa using h)]
  have hc : userSortField "createdAt" = "createdAt" := by rfl
  refine ⟨?_, ?_, ?_, ?_⟩
  · unfold getUsersWithPagination
    rw [hf, hc]
  · intro frag
    unfold searchUserWithFullName
    rw [hf, hc]
  · intro frag
    unfold searchUserWithEmail
    rw [hf, hc]
  · intro frag
    unfold searchUserWithEmployeeId
    rw [hf, hc]

/-- Witness for C6 (amended): a request sorted by the unlisted field
`bogus` succeeds and returns the same page as the default sort. -/
theorem sortBy_fallback_witness :
    getUsersWithPagination [] (some 1) (some 10) "bogus" "desc" =
      getUsersWithPagination [] (some 1) (some 10) "createdAt" "desc" :=
  (sortBy_fallback [] (some 1) (some 10) "desc" "bogus" (by decide)).1

/-- For a date derived as `new Date(year, month-1, 1)` with a valid
month, lying in the half-open interval `[y-01-01, (y+1)-01-01)` is the
same as having year `y`. -/
theorem date_range_iff (y Y M : Nat) (hM : 1 ≤ M) :
    (dateLe ⟨y, 1, 1⟩ ⟨Y, M, 1⟩ && dateLt ⟨Y, M, 1⟩ ⟨y + 1, 1, 1⟩) = true ↔
      Y = y := by
  simp only [dateLe, dateLt, Bool.and_eq_true, Bool.or_eq_true,
    decide_eq_true_eq, beq_iff_eq]
  omega

/-- C7: the year filter on publications is half-open — both in
`advancedSearch` and in `getPublicationsByYear` (whose extra
`publicationYear` disjunct adds nothing once `publication_date` is the
derived date), a publication is selected for year `y` exactly when its
`publication_date` lies in `[y-01-01, (y+1)-01-01)`; in particular a
publication dated exactly `(y+1)-01-01` is excluded. -/
theorem year_filter_half_open (y : Nat) (pubs : List SPub) (pub : SPub)
    (hinv : derivedDateInv pub) :
    (advYearMatch y pub = true ↔ inYearRange y pub.publication_date) ∧
    byYearMatch y pub = advYearMatch y pub ∧
    (pub ∈ getPublicationsByYearSelect pubs y ↔
      pub ∈ pubs ∧ inYearRange y pub.publication_date) ∧
    (pub.publication_date = ⟨y + 1, 1, 1⟩ →
      pub ∉ getPublicationsByYearSelect pubs y ∧ advYearMatch y pub = false) := by
  obtain ⟨hd, hm1, hm2⟩ := hinv
  have hiff : (dateLe ⟨y, 1, 1⟩ pub.publication_date &&
      dateLt pub.publication_date ⟨y + 1, 1, 1⟩) = true ↔
      pub.publicationYear = y := by
    rw [hd]
    exact date_range_iff y pub.publicationYear pub.publicationMonth hm1
  have hc1 : advYearMatch y pub = true ↔ inYearRange y pub.publication_date := by
    unfold advYearMatch inYearRange
    rw [Bool.and_eq_true]
  have hby : byYearMatch y pub = advYearMatch y pub := by
    unfold byYearMatch advYearMatch
    by_cases hY : pub.publicationYear = y
    · simp [hiff.mpr hY, hY]
    · have hX : (dateLe ⟨y, 1, 1⟩ pub.publication_date &&
          dateLt pub.publication_date ⟨y + 1, 1, 1⟩) = false := by
        rw [Bool.eq_false_iff]
        intro hc
        exact hY (hiff.mp hc)
      simp [hX, hY]
  have hadvF : pub.publication_date = ⟨y + 1, 1, 1⟩ →
      advYearMatch y pub = false := by
    intro hdate
    have hfields : (⟨pub.publicationYear, pub.publicationMonth, 1⟩ : DateYMD) =
        ⟨y + 1, 1, 1⟩ := by rw [← hd, hdate]
    have hY : pub.publicationYear = y + 1 := by
      have := congrArg DateYMD.y hfields
      simpa using this
    rw [Bool.eq_false_iff]
    intro hc
    have := hiff.mp (by
      have hc2 := hc
      unfold advYearMatch at hc2
      exact hc2)
    omega
  refine ⟨hc1, hby, ?_, ?_⟩
  · unfold getPublicationsByYearSelect
    rw [List.mem_filter, hby]
    exact and_congr_right (fun _ => hc1)
  · intro hdate
    refine ⟨?_, hadvF hdate⟩
    unfold getPublicationsByYearSelect
    rw [List.mem_filter, hby]
    rintro ⟨-, hsel⟩
    rw [hadvF hdate] at hsel
    exact absurd hsel (by simp)

/-- A publication dated exactly 2021-01-01 (derived date fields). -/
def pubJan2021 : SPub := ⟨0, "t", "a", [], ⟨2021, 1, 1⟩, 2021, 1, 0⟩

/-- Witness for C7: the publication dated 2021-01-01 is excluded from the
year-2020 selection of `getPublicationsByYear` and fails the
`advancedSearch` year-2020 filter. -/
theorem year_filter_half_open_witness :
    pubJan2021 ∉ getPublicationsByYearSelect [pubJan2021] 2020 ∧
    advYearMatch 2020 pubJan2021 = false :=
  (year_filter_half_open 2020 [pubJan2021] pubJan2021
    ⟨rfl, by decide, by decide⟩).2.2.2 rfl

/-- C8: when a text query is present and relevance ranking is requested
(`sortBy = "relevance"`), `advancedSearch` orders the results by the
weighted multi-field text score — the sort is the score sort for every
requested `order`, overriding the field sort — and `simpleTextSearch`
always returns its page ordered by descending relevance score. -/
theorem relevance_sort_overrides (q order : String) (l : List SPub)
    (hq : (strTrim q).isEmpty = false) :
    (advancedSearchSort q "relevance" order l).Pairwise
      (fun a b => textScore q b ≤ textScore q a) ∧
    advancedSearchSort q "relevance" order l = sortWith (scoreLe q) l ∧
    (∀ page lim out, simpleTextSearch l q page lim = .ok out →
      out.publications.Pairwise (fun a b => textScore q b ≤ textScore q a)) := by
  have heq : advancedSearchSort q "relevance" order l =
      sortWith (scoreLe q) l := by
    unfold advancedSearchSort
    rw [if_pos (by simp [hq])]
  have htot : ∀ a b : SPub, scoreLe q a b = true ∨ scoreLe q b a = true := by
    intro a b
    unfold scoreLe
    rcases Nat.le_total (textScore q b) (textScore q a) with h | h
    · exact Or.inl (decide_eq_true h)
    · exact Or.inr (decide_eq_true h)
  have htrans : ∀ a b c : SPub, scoreLe q a b = true → scoreLe q b c = true →
      scoreLe q a c = true := by
    intro a b c h1 h2
    unfold scoreLe at h1 h2 ⊢
    simp only [decide_eq_true_eq] at h1 h2 ⊢
    omega
  have hpair : ∀ m : List SPub, (sortWith (scoreLe q) m).Pairwise
      (fun a b => textScore q b ≤ textScore q a) := by
    intro m
    refine (pairwise_sortWith (scoreLe q) htot htrans m).imp ?_
    intro a b hab
    simpa [scoreLe] using hab
  refine ⟨heq ▸ hpair l, heq, ?_⟩
  intro page lim out hout
  unfold simpleTextSearch at hout
  rw [if_neg (by simp [hq])] at hout
  simp only [Except.ok.injEq] at hout
  subst hout
  refine List.Pairwise.sublist ?_ (hpair (l.filter (fun p => decide (0 < textScore q p))))
  exact (List.take_sublist _ _).trans (List.drop_sublist _ _)

/-- Two publications, one matching the query `a` in its abstract. -/
def demoPubs : List SPub :=
  [⟨0, "alpha", "x", [], ⟨2020, 1, 1⟩, 2020, 1, 0⟩,
   ⟨1, "beta", "a", [], ⟨2021, 1, 1⟩, 2021, 1, 0⟩]

/-- Witness for C8: with query `a` and relevance requested, the
advanced-search ordering of `demoPubs` is descending in the text
score. -/
theorem relevance_sort_overrides_witness :
    (advancedSearchSort "a" "relevance" "desc" demoPubs).Pairwise
      (fun a b => textScore "a" b ≤ textScore "a" a) :=
  (relevance_sort_overrides "a" "desc" demoPubs (by decide)).1

theorem filter_proj_eq (users1 users2 : List UserRec)
    (pred : UserRec → Bool) (predV : UserView → Bool)
    (hfact : ∀ u, pred u = predV (projUser u))
    (hview : users1.map projUser = users2.map projUser) :
    (users1.filter pred).map projUser = (users2.filter pred).map projUser := by
  have h1 : pred = (predV ∘ projUser) := funext hfact
  rw [h1, ← List.filter_map, ← List.filter_map, hview]

/-- C9: every user search operation (by fullname, email, or employee id)
and the user listing return records projected through the
password-free `UserView`; their output is identical on any two stores
that agree after blanking every password — the stored passwords cannot
influence any returned item. -/
theorem password_excluded (users1 users2 : List UserRec)
    (h : users1.map scrubUser = users2.map scrubUser)
    (frag : String) (page lim : Option Int) (sortBy order : String) :
    searchUserWithFullName users1 frag page lim sortBy order =
      searchUserWithFullName users2 frag page lim sortBy order ∧
    searchUserWithEmail users1 frag page lim sortBy order =
      searchUserWithEmail users2 frag page lim sortBy order ∧
    searchUserWithEmployeeId users1 frag page lim sortBy order =
      searchUserWithEmployeeId users2 frag page lim sortBy order ∧
    getUsersWithPagination users1 page lim sortBy order =
      getUsersWithPagination users2 page lim sortBy order := by
  have hps : projUser ∘ scrubUser = projUser := funext (fun u => rfl)
  have hview : users1.map projUser = users2.map projUser := by
    calc users1.map projUser
        = users1.map (projUser ∘ scrubUser) := by rw [hps]
      _ = (users1.map scrubUser).map projUser := (List.map_map _ _ _).symm
      _ = (users2.map scrubUser).map projUser := by rw [h]
      _ = users2.map (projUser ∘ scrubUser) := List.map_map _ _ _
      _ = users2.map projUser := by rw [hps]
  refine ⟨?_, ?_, ?_, ?_⟩
  · unfold searchUserWithFullName
    by_cases hb : (strTrim frag).isEmpty = true
    · rw [if_pos hb, if_pos hb]
    · rw [if_neg hb, if_neg hb,
        filter_proj_eq users1 users2
          (fun u => strContainsCI u.fullname (strTrim frag))
          (fun v => strContainsCI v.fullname (strTrim frag))
          (fun u => rfl) hview]
  · unfold searchUserWithEmail
    by_cases hb : (strTrim frag).isEmpty = true
    · rw [if_pos hb, if_pos hb]
    · rw [if_neg hb, if_neg hb,
        filter_proj_eq users1 users2
          (fun u => strContainsCI u.email (strTrim frag))
          (fun v => strContainsCI v.email (strTrim frag))
          (fun u => rfl) hview]
  · unfold searchUserWithEmployeeId
    by_cases hb : (strTrim frag).isEmpty = true
    · rw [if_pos hb, if_pos hb]
    · rw [if_neg hb, if_neg hb,
        filter_proj_eq users1 users2
          (fun u => strContainsCI u.employee_id (strTrim frag))
          (fun v => strContainsCI v.employee_id (strTrim frag))
          (fun u => rfl) hview]
  · unfold getUsersWithPagination
    rw [hview]

/-- A stored user with password `pwA`. -/
def userA : UserRec := ⟨0, "E1", "Ada", "ada@example.com", "pwA", "user", 10, 10⟩

/-- The same stored user with password `pwB`. -/
def userB : UserRec := ⟨0, "E1", "Ada", "ada@example.com", "pwB", "user", 10, 10⟩

/-- Witness for C5 (amended): on a concrete one-user store, the fullname
search succeeds and its page obeys the clamped contract — one item
(`min 100 (1 - 0)`), no next page, no previous page. -/
theorem pagination_contract_witness :
    ∃ out, searchUserWithFullName [userA] "Ada" (some 1) (some 100)
        "createdAt" "desc" = Except.ok out ∧
      out.currentPage = effPage (some 1) ∧
      out.users.length =
        min (effLimit (some 100))
          (out.totalUsers - (effPage (some 1) - 1) * effLimit (some 100)) ∧
      (out.hasPrevPage = true ↔ 1 < effPage (some 1)) := by
  refine ⟨_, rfl, ?_⟩
  have h := (pagination_contract [userA] (some 1) (some 100) "createdAt"
    "desc").2.2.2.2.2.2.2.2.2.1 "Ada" _ rfl
  exact ⟨h.1, h.2.2.1, h.2.2.2.2.2⟩

/-- Witness for C9: two stores differing only in the stored password
produce identical fullname-search results. -/
theorem password_excluded_witness :
    searchUserWithFullName [userA] "Ada" (some 1) (some 10) "createdAt" "desc" =
      searchUserWithFullName [userB] "Ada" (some 1) (some 10) "createdAt" "desc" :=
  (password_excluded [userA] [userB] (by rfl) "Ada" (some 1) (some 10)
    "createdAt" "desc").1

end ResearchPub
